import Mathlib

/-!
Shallow embedding of `toggl.py` (annkamsk/toggl-monthly-reports).

Modelling conventions:
* `datetime` values compared by the checks are modelled as integers (seconds on
  a global timeline); `datetime` ordering is order-isomorphic to this.
* Python `float` arithmetic in `check_reasonable_time` is modelled exactly:
  `toDouble` maps a rational to the exact value of the nearest IEEE binary64
  double (round-to-nearest, ties to even, 53-bit precision), and `pyRound2`
  models CPython's correctly-rounded `round(x, 2)` on that double.
* `logging.warning(...)` calls are modelled by returning the list of emitted
  warnings, each warning a structured record of the values interpolated into
  the message.
* Python's `sorted` (a stable sort) is modelled by `List.insertionSort`, which
  is stable and sorts; the output of every stable sort by a given total
  preorder key is the same list.
-/

namespace Toggl

/-- Embeds the dataclass `TimeEntry` of `toggl.py`: `project_id` is
`Optional[int]`, `description` a string, `start`/`stop` datetimes (modelled as
integer seconds), `seconds` the integer duration. -/
structure TimeEntry where
  project_id : Option Int
  description : String
  start : Int
  stop : Int
  seconds : Int
deriving DecidableEq, Repr

/-- One warning emitted via `logging.warning`; each constructor records the
values interpolated into the corresponding f-string of `toggl.py`. -/
inductive Warning where
  /-- Embeds "Entry: {project_id} at {start} has empty description." -/
  | emptyDescription (project_id : Option Int) (start : Int)
  /-- Embeds "Entry: {description} at {start} has empty project." -/
  | emptyProject (description : String) (start : Int)
  /-- Embeds "Entry: {description} at {start} lasted {hours}h." -/
  | longEntry (description : String) (start : Int) (hours : ℚ)
  /-- Embeds "Entries: {d1} at {stop1}, {d2} at {start2} are overlapping." -/
  | overlap (desc1 : String) (stop1 : Int) (desc2 : String) (start2 : Int)
  /-- Embeds "Raised exception {e} while checking for correctness." -/
  | raisedException (e : String)
deriving DecidableEq, Repr

/-- Embeds the constant `SECONDS_IN_H = 3600`. -/
def SECONDS_IN_H : Int := 3600

/-- Rounds a rational to the nearest integer, ties to even: used both for the
53-bit mantissa rounding inside `toDouble` and for the decimal rounding of
`pyRound2`. -/
def roundHalfEven (q : ℚ) : Int :=
  let n := ⌊q⌋
  let r := q - n
  if r < 1/2 then n
  else if r > 1/2 then n + 1
  else if n % 2 = 0 then n else n + 1

/-- Exact rational value of the IEEE binary64 double nearest to a positive
rational: the 53-bit mantissa `q / 2 ^ (Int.log 2 q - 52)` is rounded
half-to-even and scaled back. Overflow and subnormals are not modelled; they
are unreachable for the magnitudes this program computes. -/
def toDoublePos (q : ℚ) : ℚ :=
  (roundHalfEven (q / 2 ^ (Int.log 2 q - 52)) : ℚ) * 2 ^ (Int.log 2 q - 52)

/-- Exact rational value of the IEEE binary64 double nearest to `q` (round to
nearest, ties to even): the model of Python's float conversion, in particular
of the quotient `entry.seconds / 3600`, whose float result is the double
nearest the exact ratio. -/
def toDouble (q : ℚ) : ℚ :=
  if 0 < q then toDoublePos q
  else if q < 0 then -toDoublePos (-q)
  else 0

/-- Embeds Python's `round(x, 2)` as used on `entry.seconds / 3600`: the
float quotient is the double nearest the exact ratio (`toDouble`), and CPython
rounds a double to 2 decimals by correctly rounding its exact value to the
nearest multiple of 1/100, ties to even. The result is kept as that decimal
rational: converting it back to a double changes neither the comparison with
8 (`k/100 > 8` iff the double of `k/100` exceeds 8 at these magnitudes) nor
the digits the warning displays (the shortest repr of that double is the same
2-decimal numeral). -/
def pyRound2 (q : ℚ) : ℚ := (roundHalfEven (toDouble q * 100) : ℚ) / 100

/-- Embeds `check_if_empty` of `toggl.py`: per entry, a warning when the
description is falsy (the empty string) and a warning when `project_id is
None`; warnings are returned in emission order. -/
def check_if_empty : List TimeEntry → List Warning
  | [] => []
  | e :: rest =>
    (if e.description = "" then [Warning.emptyDescription e.project_id e.start] else [])
      ++ (if e.project_id = none then [Warning.emptyProject e.description e.start] else [])
      ++ check_if_empty rest

/-- Embeds `check_reasonable_time` of `toggl.py`: per entry, computes
`hours = round(entry.seconds / SECONDS_IN_H, 2)` and warns when `hours > 8`. -/
def check_reasonable_time : List TimeEntry → List Warning
  | [] => []
  | e :: rest =>
    (let hours := pyRound2 ((e.seconds : ℚ) / (SECONDS_IN_H : ℚ))
     if 8 < hours then [Warning.longEntry e.description e.start hours] else [])
      ++ check_reasonable_time rest

/-- Embeds the sort key `lambda entry: (entry.start, entry.stop)` together with
Python's tuple comparison: the lexicographic order on `(start, stop)`. -/
def keyLe (a b : TimeEntry) : Prop :=
  a.start < b.start ∨ (a.start = b.start ∧ a.stop ≤ b.stop)

instance : DecidableRel keyLe := fun a b => by unfold keyLe; infer_instance

/-- Strict version of `keyLe`: the sort keys of `a` and `b` are distinct and
`a`'s is smaller. -/
def keyLt (a b : TimeEntry) : Prop :=
  a.start < b.start ∨ (a.start = b.start ∧ a.stop < b.stop)

instance : IsTotal TimeEntry keyLe :=
  ⟨fun a b => by unfold keyLe; omega⟩

instance : IsTrans TimeEntry keyLe :=
  ⟨fun a b c hab hbc => by unfold keyLe at *; omega⟩

instance : IsAntisymm TimeEntry keyLt :=
  ⟨fun a b hab hba => by exfalso; unfold keyLt at hab hba; omega⟩

/-- The warning emitted for an adjacent overlapping pair in
`check_if_overlapping`. -/
def overlapWarning (int1 int2 : TimeEntry) : Warning :=
  Warning.overlap int1.description int1.stop int2.description int2.start

/-- Embeds the loop of `check_if_overlapping`: over `zip(l, l[1:])`, warn when
`int2.start < int1.stop`. -/
def adjacentOverlaps (l : List TimeEntry) : List Warning :=
  (l.zip l.tail).flatMap fun p =>
    if p.2.start < p.1.stop then [overlapWarning p.1 p.2] else []

/-- Embeds `check_if_overlapping` of `toggl.py`: stable-sorts the entries by
`(start, stop)` and warns for each adjacent pair whose intervals overlap. -/
def check_if_overlapping (entries : List TimeEntry) : List Warning :=
  adjacentOverlaps (List.insertionSort keyLe entries)

/-- Calendar date, embedding a `datetime.date`-valued `datetime` (the code only
ever builds midnight datetimes in `MonthRange`). -/
structure Date where
  year : Int
  month : Int
  day : Int
deriving DecidableEq, Repr

/-- Embeds Python's `calendar.isleap`: the Gregorian leap-year rule used by
`calendar.monthrange`. -/
def isleap (y : Int) : Bool :=
  y % 4 = 0 && (y % 100 ≠ 0 || y % 400 = 0)

/-- Embeds `calendar.monthrange(year, month)[1]`: the number of days of the
given month, accounting for leap years. -/
def daysInMonth (month year : Int) : Int :=
  if month = 2 then (if isleap year then 29 else 28)
  else if month = 4 ∨ month = 6 ∨ month = 9 ∨ month = 11 then 30
  else 31

/-- The day after `d`, following `datetime` calendar arithmetic. -/
def nextDay (d : Date) : Date :=
  if d.day < daysInMonth d.month d.year then ⟨d.year, d.month, d.day + 1⟩
  else if d.month < 12 then ⟨d.year, d.month + 1, 1⟩
  else ⟨d.year + 1, 1, 1⟩

/-- Embeds `d + timedelta(days=n)` for `n ≥ 0`. -/
def addDays (d : Date) : Nat → Date
  | 0 => d
  | n + 1 => addDays (nextDay d) n

/-- Embeds `datetime.now().replace(day=1) - timedelta(days=1)`: the last day of
the month preceding `now`'s month. -/
def lastDayOfPrevMonth (now : Date) : Date :=
  if 1 < now.month then ⟨now.year, now.month - 1, daysInMonth (now.month - 1) now.year⟩
  else ⟨now.year - 1, 12, 31⟩

/-- Embeds Python's `x or default` applied to an `Optional[int]`: both `None`
and the falsy value `0` select the default. -/
def truthyOr (x : Option Int) (default : Int) : Int :=
  match x with
  | none => default
  | some v => if v = 0 then default else v

/-- Left-pads the decimal representation of a nonnegative integer with zeros,
as `strftime`'s `%Y`/`%m`/`%d` directives do. -/
def padNum (width : Nat) (n : Int) : String :=
  let s := toString n.toNat
  String.mk (List.replicate (width - s.length) '0') ++ s

/-- Embeds `strftime("%Y-%m-%d")` on a midnight datetime. -/
def fmtDate (d : Date) : String :=
  padNum 4 d.year ++ "-" ++ padNum 2 d.month ++ "-" ++ padNum 2 d.day

/-- Embeds the dataclass `MonthRange` of `toggl.py` (post-`__init__` state). -/
structure MonthRange where
  startDate : Date
  endDate : Date
  days : Int
  month : Int
  year : Int
deriving DecidableEq, Repr

/-- Embeds the property `MonthRange.start`: `self._start.strftime("%Y-%m-%d")`. -/
def MonthRange.start (r : MonthRange) : String := fmtDate r.startDate

/-- Embeds the property `MonthRange.end`: `self._end.strftime("%Y-%m-%d")`. -/
def MonthRange.stop (r : MonthRange) : String := fmtDate r.endDate

/-- Validity condition enforced by `datetime(year, month, 1)`: constructing a
datetime raises `ValueError` unless `MINYEAR ≤ year ≤ MAXYEAR` and
`1 ≤ month ≤ 12` (day 1 is always valid). -/
def datetimeOk (year month : Int) : Prop :=
  1 ≤ year ∧ year ≤ 9999 ∧ 1 ≤ month ∧ month ≤ 12

instance (year month : Int) : Decidable (datetimeOk year month) := by
  unfold datetimeOk; infer_instance

/-- Embeds `MonthRange.__init__(month, year)`: resolves each argument through
Python truthiness against the previous month of `now`, then builds the first
day, the day count, and the last day; returns `Except.error` where
`datetime(year, month, 1)` would raise `ValueError`. -/
def mkMonthRange (now : Date) (month year : Option Int) : Except String MonthRange :=
  let prev := lastDayOfPrevMonth now
  let m := truthyOr month prev.month
  let y := truthyOr year prev.year
  if datetimeOk y m then
    let start : Date := ⟨y, m, 1⟩
    let days := daysInMonth m y
    Except.ok ⟨start, addDays start (days - 1).toNat, days, m, y⟩
  else Except.error "ValueError"

/-- Embeds the enum `ReportType` of `toggl.py`. -/
inductive ReportType where
  | SUM
  | DET
  | INVOICE
deriving DecidableEq, Repr

/-- Embeds the enum `FileExtension` of `toggl.py`. -/
inductive FileExtension where
  | CSV
  | PDF
  | XLSX
  | NONE
deriving DecidableEq, Repr

/-- One attempted report download of `run`, identified by its
`(report_type, file_ext)` arguments. -/
structure Download where
  report_type : ReportType
  file_ext : FileExtension
deriving DecidableEq, Repr

/-- Embeds the `try`/`except` block of `check_correctness` over the outcomes of
the three checks run in order: each outcome is either the warnings the check
logged, or the exception it raised; a raised exception skips the remaning
checks and is logged as one `raisedException` warning, never propagated. -/
def checksTryExcept (r1 r2 r3 : Except String (List Warning)) : List Warning :=
  match r1 with
  | Except.error e => [Warning.raisedException e]
  | Except.ok w1 =>
    match r2 with
    | Except.error e => w1 ++ [Warning.raisedException e]
    | Except.ok w2 =>
      match r3 with
      | Except.error e => w1 ++ w2 ++ [Warning.raisedException e]
      | Except.ok w3 => w1 ++ w2 ++ w3

/-- Embeds `check_correctness` applied to already-fetched entries: the three
embedded checks are total, so each outcome is `Except.ok`. -/
def check_correctness (entries : List TimeEntry) : List Warning :=
  checksTryExcept (Except.ok (check_if_empty entries))
    (Except.ok (check_reasonable_time entries))
    (Except.ok (check_if_overlapping entries))

/-- The download_report calls issued by `run`, in order: summary PDF, detail
PDF, detail CSV, and — when `SPREADSHEET_ID` is configured — the invoice. -/
def configuredDownloads (spreadsheetConfigured : Bool) : List Download :=
  [⟨ReportType.SUM, FileExtension.PDF⟩, ⟨ReportType.DET, FileExtension.PDF⟩,
    ⟨ReportType.DET, FileExtension.CSV⟩]
    ++ (if spreadsheetConfigured then [⟨ReportType.INVOICE, FileExtension.XLSX⟩] else [])

/-- Embeds the control flow of `run`: `MonthRange` construction may raise a
validation error; inside `check_correctness`, `get_time_entries` (outside the
`try`) may raise a remote-fetch error; the three checks — abstracted here to
arbitrary outcomes `r1 r2 r3`, since any of them could raise on malformed
data — are guarded by the `try`/`except`; then all configured downloads are
attempted. Returns the logged warnings and the attempted downloads. -/
def run (now : Date) (month year : Option Int)
    (fetch : Except String (List TimeEntry))
    (r1 r2 r3 : Except String (List Warning))
    (spreadsheetConfigured : Bool) :
    Except String (List Warning × List Download) :=
  match mkMonthRange now month year with
  | Except.error e => Except.error e
  | Except.ok _ =>
    match fetch with
    | Except.error e => Except.error e
    | Except.ok _ =>
      Except.ok (checksTryExcept r1 r2 r3, configuredDownloads spreadsheetConfigured)

/-! General lemmas about the embedded operations. -/

theorem check_if_empty_eq_flatMap (l : List TimeEntry) :
    check_if_empty l = l.flatMap (fun e => check_if_empty [e]) := by
  induction l with
  | nil => rfl
  | cons e rest ih => simp [check_if_empty, ih]

theorem check_reasonable_time_eq_flatMap (l : List TimeEntry) :
    check_reasonable_time l = l.flatMap (fun e => check_reasonable_time [e]) := by
  induction l with
  | nil => rfl
  | cons e rest ih => simp [check_reasonable_time, ih]

theorem check_if_empty_perm {l l' : List TimeEntry} (hp : l.Perm l') :
    (check_if_empty l).Perm (check_if_empty l') := by
  rw [check_if_empty_eq_flatMap, check_if_empty_eq_flatMap]
  exact hp.flatMap_right _

theorem check_reasonable_time_perm {l l' : List TimeEntry} (hp : l.Perm l') :
    (check_reasonable_time l).Perm (check_reasonable_time l') := by
  rw [check_reasonable_time_eq_flatMap, check_reasonable_time_eq_flatMap]
  exact hp.flatMap_right _

theorem roundHalfEven_eq_of_near (x : ℚ) (n : Int) (h1 : (n : ℚ) - 1 / 2 < x)
    (h2 : x < (n : ℚ) + 1 / 2) : roundHalfEven x = n := by
  rcases le_or_lt (n : ℚ) x with h | h
  · have hfl : ⌊x⌋ = n := by
      rw [Int.floor_eq_iff]
      exact ⟨h, by linarith⟩
    simp only [roundHalfEven, hfl]
    rw [if_pos (by linarith)]
  · have hfl : ⌊x⌋ = n - 1 := by
      rw [Int.floor_eq_iff]
      push_cast
      constructor
      · linarith
      · linarith
    simp only [roundHalfEven, hfl]
    rw [if_neg (by push_cast; linarith), if_pos (by push_cast; linarith)]
    omega

theorem roundHalfEven_near (x : ℚ) : |(roundHalfEven x : ℚ) - x| ≤ 1 / 2 := by
  have hfl : ((⌊x⌋ : ℚ)) ≤ x := Int.floor_le x
  have hfu : x < ⌊x⌋ + 1 := Int.lt_floor_add_one x
  simp only [roundHalfEven]
  split_ifs with h1 h2 h3 <;>
    · rw [abs_le]
      constructor <;> push_cast at * <;> linarith

theorem roundHalfEven_gt_800 (x : ℚ) : 800 < roundHalfEven x ↔ 1601 / 2 < x := by
  have hfl : ((⌊x⌋ : ℚ)) ≤ x := Int.floor_le x
  have hfu : x < ⌊x⌋ + 1 := Int.lt_floor_add_one x
  simp only [roundHalfEven]
  split_ifs with h1 h2 h3
  · constructor
    · intro h
      have h801 : (801 : ℚ) ≤ (⌊x⌋ : ℚ) := by exact_mod_cast h
      linarith
    · intro h
      have : (800 : ℚ) < (⌊x⌋ : ℚ) := by linarith
      exact_mod_cast this
  · constructor
    · intro h
      have h800 : (800 : ℚ) ≤ (⌊x⌋ : ℚ) := by exact_mod_cast (by omega : (800 : Int) ≤ ⌊x⌋)
      linarith
    · intro h
      have h799 : (799 : ℚ) < (⌊x⌋ : ℚ) := by linarith
      have : (799 : Int) < ⌊x⌋ := by exact_mod_cast h799
      omega
  · push_neg at h1 h2
    constructor
    · intro h
      have h801 : (801 : ℚ) ≤ (⌊x⌋ : ℚ) := by exact_mod_cast h
      linarith
    · intro h
      have : (800 : ℚ) < (⌊x⌋ : ℚ) := by linarith
      exact_mod_cast this
  · push_neg at h1 h2
    constructor
    · intro h
      have hodd : ⌊x⌋ % 2 ≠ 0 := h3
      have h801 : (801 : Int) ≤ ⌊x⌋ := by omega
      have h801q : (801 : ℚ) ≤ (⌊x⌋ : ℚ) := by exact_mod_cast h801
      linarith
    · intro h
      have h799 : (799 : ℚ) < (⌊x⌋ : ℚ) := by linarith
      have : (799 : Int) < ⌊x⌋ := by exact_mod_cast h799
      omega

theorem toDoublePos_near (q : ℚ) (hq : 0 < q) : |toDoublePos q - q| ≤ q / 2 ^ 53 := by
  have h2e : (0 : ℚ) < 2 ^ (Int.log 2 q - 52) := zpow_pos (by norm_num) _
  have hlog : (2 : ℚ) ^ (Int.log 2 q) ≤ q := by
    have h := Int.zpow_log_le_self (b := 2) (R := ℚ) (by norm_num) hq
    exact_mod_cast h
  have hrd := roundHalfEven_near (q / 2 ^ (Int.log 2 q - 52))
  have key : toDoublePos q - q =
      ((roundHalfEven (q / 2 ^ (Int.log 2 q - 52)) : ℚ) - q / 2 ^ (Int.log 2 q - 52))
        * 2 ^ (Int.log 2 q - 52) := by
    unfold toDoublePos
    field_simp
  rw [key, abs_mul, abs_of_pos h2e]
  have step1 : |(roundHalfEven (q / 2 ^ (Int.log 2 q - 52)) : ℚ) - q / 2 ^ (Int.log 2 q - 52)|
      * 2 ^ (Int.log 2 q - 52) ≤ (1 / 2) * 2 ^ (Int.log 2 q - 52) :=
    mul_le_mul_of_nonneg_right hrd (le_of_lt h2e)
  refine le_trans step1 ?_
  have hsplit : (2 : ℚ) ^ (Int.log 2 q - 52) = 2 ^ (Int.log 2 q) / 2 ^ (52 : Int) := by
    rw [zpow_sub₀ (by norm_num : (2 : ℚ) ≠ 0)]
  have h2 : (2 : ℚ) ^ (Int.log 2 q - 52) ≤ q / 2 ^ (52 : Int) := by
    rw [hsplit]
    gcongr
  have h52 : ((2 : ℚ) ^ (52 : Int)) = 2 ^ (52 : ℕ) := by norm_num
  calc (1 / 2) * 2 ^ (Int.log 2 q - 52) ≤ (1 / 2) * (q / 2 ^ (52 : Int)) := by
        exact mul_le_mul_of_nonneg_left h2 (by norm_num)
    _ = q / 2 ^ 53 := by
        rw [h52]
        ring

theorem toDoublePos_le (q : ℚ) (hq : 0 < q) : toDoublePos q ≤ q + q / 2 ^ 53 := by
  have h := toDoublePos_near q hq
  rw [abs_le] at h
  linarith [h.2]

theorem le_toDoublePos (q : ℚ) (hq : 0 < q) : q - q / 2 ^ 53 ≤ toDoublePos q := by
  have h := toDoublePos_near q hq
  rw [abs_le] at h
  linarith [h.1]

theorem toDouble_le (q : ℚ) (hq : 0 < q) : toDouble q ≤ q + q / 2 ^ 53 := by
  unfold toDouble
  rw [if_pos hq]
  exact toDoublePos_le q hq

theorem le_toDouble (q : ℚ) (hq : 0 < q) : q - q / 2 ^ 53 ≤ toDouble q := by
  unfold toDouble
  rw [if_pos hq]
  exact le_toDoublePos q hq

theorem toDouble_nonpos (q : ℚ) (hq : q ≤ 0) : toDouble q ≤ 0 := by
  unfold toDouble
  rcases lt_or_eq_of_le hq with hlt | heq
  · rw [if_neg (by linarith), if_pos hlt]
    have hpos : (0 : ℚ) < -q := by linarith
    have hlb := le_toDoublePos (-q) hpos
    have hc : (0 : ℚ) ≤ (-q) - (-q) / 2 ^ 53 := by nlinarith
    linarith
  · rw [if_neg (by rw [heq]; exact lt_irrefl 0), if_neg (by rw [heq]; exact lt_irrefl 0)]

theorem log2_8005 : Int.log 2 ((1601 : ℚ) / 200) = 3 := by
  rw [Int.log_of_one_le_right _ (by norm_num)]
  have hfl : ⌊(1601 / 200 : ℚ)⌋₊ = 8 := by
    rw [Nat.floor_eq_iff (by norm_num)]
    norm_num
  have hl : Nat.log 2 8 = 3 := Nat.log_eq_of_pow_le_of_lt_pow (by norm_num) (by norm_num)
  rw [hfl, hl]
  rfl

theorem toDouble_8005_gt : (1601 : ℚ) / 200 < toDouble ((1601 : ℚ) / 200) := by
  rw [show toDouble ((1601 : ℚ) / 200) = toDoublePos ((1601 : ℚ) / 200) from
    if_pos (by norm_num)]
  unfold toDoublePos
  rw [log2_8005]
  have harg : ((1601 : ℚ) / 200) / 2 ^ ((3 : Int) - 52) = 901282875427520512 / 200 := by
    rw [show ((3 : Int) - 52) = -(49 : Int) from by norm_num, zpow_neg, div_eq_mul_inv,
      inv_inv]
    norm_num
  rw [harg, roundHalfEven_eq_of_near _ 4506414377137603 (by norm_num) (by norm_num)]
  have hpow : (2 : ℚ) ^ ((3 : Int) - 52) = ((2 : ℚ) ^ (49 : ℕ))⁻¹ := by
    rw [show ((3 : Int) - 52) = -(49 : Int) from by norm_num, zpow_neg]
    norm_num
  rw [hpow, ← div_eq_mul_inv, lt_div_iff₀ (by positivity)]
  norm_num

theorem pyRound2_hours_gt_8_iff (s : Int) :
    (8 < pyRound2 ((s : ℚ) / ((SECONDS_IN_H : Int) : ℚ))) ↔ 28818 ≤ s := by
  have h3600 : ((SECONDS_IN_H : Int) : ℚ) = 3600 := by norm_num [SECONDS_IN_H]
  unfold pyRound2
  rw [h3600, lt_div_iff₀ (by norm_num : (0 : ℚ) < 100)]
  have hcast : ((8 : ℚ) * 100 < ((roundHalfEven (toDouble ((s : ℚ) / 3600) * 100) : Int) : ℚ))
      ↔ 800 < roundHalfEven (toDouble ((s : ℚ) / 3600) * 100) := by
    constructor
    · intro h
      by_contra hc
      push_neg at hc
      have hcq : ((roundHalfEven (toDouble ((s : ℚ) / 3600) * 100) : Int) : ℚ) ≤ 800 := by
        exact_mod_cast hc
      linarith
    · intro h
      have hcq : (800 : ℚ) < ((roundHalfEven (toDouble ((s : ℚ) / 3600) * 100) : Int) : ℚ) := by
        exact_mod_cast h
      linarith
  rw [hcast, roundHalfEven_gt_800]
  constructor
  · intro h
    by_contra hc
    push_neg at hc
    have hc' : s ≤ 28817 := by omega
    rcases le_or_lt s 0 with h0 | h0
    · have hq0 : (s : ℚ) / 3600 ≤ 0 := by
        rw [div_nonpos_iff]
        right
        exact ⟨by exact_mod_cast h0, by norm_num⟩
      have := toDouble_nonpos _ hq0
      linarith
    · have hqpos : (0 : ℚ) < (s : ℚ) / 3600 := by
        apply div_pos _ (by norm_num)
        exact_mod_cast h0
      have hub := toDouble_le _ hqpos
      have hle : (s : ℚ) / 3600 ≤ 28817 / 3600 := by
        gcongr
        exact_mod_cast hc'
      have hle2 : (s : ℚ) / 3600 / 2 ^ 53 ≤ (28817 : ℚ) / 3600 / 2 ^ 53 := by gcongr
      have hfinal : (28817 : ℚ) / 3600 + 28817 / 3600 / 2 ^ 53 < 1601 / 200 := by norm_num
      linarith
  · intro h
    rcases eq_or_lt_of_le h with heq | hlt
    · have hq : (s : ℚ) / 3600 = 1601 / 200 := by
        rw [← heq]
        norm_num
      rw [hq]
      have := toDouble_8005_gt
      linarith
    · have hs : (28819 : Int) ≤ s := by omega
      have hqpos : (0 : ℚ) < (s : ℚ) / 3600 := by
        apply div_pos _ (by norm_num)
        exact_mod_cast (by omega : (0 : Int) < s)
      have hlb := le_toDouble _ hqpos
      have hge : (28819 : ℚ) / 3600 ≤ (s : ℚ) / 3600 := by
        gcongr
        exact_mod_cast hs
      have hfact : (s : ℚ) / 3600 - (s : ℚ) / 3600 / 2 ^ 53
          = (s : ℚ) / 3600 * (1 - 1 / 2 ^ 53) := by ring
      have hmono : (28819 : ℚ) / 3600 * (1 - 1 / 2 ^ 53)
          ≤ (s : ℚ) / 3600 * (1 - 1 / 2 ^ 53) :=
        mul_le_mul_of_nonneg_right hge (by norm_num)
      have hconst : (1601 : ℚ) / 2 < 28819 / 3600 * (1 - 1 / 2 ^ 53) * 100 := by norm_num
      rw [hfact] at hlb
      linarith

theorem check_reasonable_time_singleton (e : TimeEntry) :
    check_reasonable_time [e] =
      if 28818 ≤ e.seconds then
        [Warning.longEntry e.description e.start
          (pyRound2 ((e.seconds : ℚ) / ((SECONDS_IN_H : Int) : ℚ)))]
      else [] := by
  simp only [check_reasonable_time, List.append_nil]
  by_cases h : 28818 ≤ e.seconds
  · rw [if_pos ((pyRound2_hours_gt_8_iff e.seconds).mpr h), if_pos h]
  · rw [if_neg (fun hc => h ((pyRound2_hours_gt_8_iff e.seconds).mp hc)), if_neg h]

theorem daysInMonth_ge_28 (m y : Int) : 28 ≤ daysInMonth m y := by
  unfold daysInMonth
  split_ifs <;> norm_num

theorem addDays_same_month : ∀ (n : ℕ) (d : Date), 1 ≤ d.day →
    d.day + n ≤ daysInMonth d.month d.year → addDays d n = ⟨d.year, d.month, d.day + n⟩ := by
  intro n
  induction n with
  | zero =>
    intro d _ _
    simp [addDays]
  | succ k ih =>
    intro d h1 h2
    have hlt : d.day < daysInMonth d.month d.year := by
      have : ((k : Int) + 1) ≤ (k + 1 : ℕ) := by push_cast; omega
      omega
    have hnext : nextDay d = ⟨d.year, d.month, d.day + 1⟩ := by
      unfold nextDay
      rw [if_pos hlt]
    rw [addDays, hnext]
    rw [ih ⟨d.year, d.month, d.day + 1⟩ (by simp; omega) (by simp; push_cast at h2 ⊢; omega)]
    simp
    ring

theorem mkMonthRange_eq_ok (now : Date) (mo yo : Option Int)
    (hok : datetimeOk (truthyOr yo (lastDayOfPrevMonth now).year)
      (truthyOr mo (lastDayOfPrevMonth now).month)) :
    mkMonthRange now mo yo =
      Except.ok
        ⟨⟨truthyOr yo (lastDayOfPrevMonth now).year, truthyOr mo (lastDayOfPrevMonth now).month, 1⟩,
          ⟨truthyOr yo (lastDayOfPrevMonth now).year, truthyOr mo (lastDayOfPrevMonth now).month,
            daysInMonth (truthyOr mo (lastDayOfPrevMonth now).month)
              (truthyOr yo (lastDayOfPrevMonth now).year)⟩,
          daysInMonth (truthyOr mo (lastDayOfPrevMonth now).month)
            (truthyOr yo (lastDayOfPrevMonth now).year),
          truthyOr mo (lastDayOfPrevMonth now).month,
          truthyOr yo (lastDayOfPrevMonth now).year⟩ := by
  set m := truthyOr mo (lastDayOfPrevMonth now).month with hm
  set y := truthyOr yo (lastDayOfPrevMonth now).year with hy
  have h28 := daysInMonth_ge_28 m y
  simp only [mkMonthRange]
  rw [← hm, ← hy, if_pos hok]
  have hadd : addDays ⟨y, m, 1⟩ (daysInMonth m y - 1).toNat = ⟨y, m, daysInMonth m y⟩ := by
    rw [addDays_same_month ((daysInMonth m y - 1).toNat) ⟨y, m, 1⟩ (by simp) (by simp; omega)]
    simp
    omega
  rw [hadd]

theorem addDays_first_to_last (m y : Int) :
    addDays ⟨y, m, 1⟩ (daysInMonth m y - 1).toNat = ⟨y, m, daysInMonth m y⟩ := by
  have h28 := daysInMonth_ge_28 m y
  rw [addDays_same_month ((daysInMonth m y - 1).toNat) ⟨y, m, 1⟩ (by simp) (by simp; omega)]
  simp
  omega

theorem truthyOr_of_ne_zero {v : Int} (h : v ≠ 0) (d : Int) : truthyOr (some v) d = v := by
  simp [truthyOr, h]

theorem mkMonthRange_explicit (now : Date) (m y : Int) (hm : 1 ≤ m ∧ m ≤ 12)
    (hy : 1 ≤ y ∧ y ≤ 9999) :
    mkMonthRange now (some m) (some y) =
      Except.ok ⟨⟨y, m, 1⟩, ⟨y, m, daysInMonth m y⟩, daysInMonth m y, m, y⟩ := by
  have hm' : truthyOr (some m) (lastDayOfPrevMonth now).month = m :=
    truthyOr_of_ne_zero (by omega) _
  have hy' : truthyOr (some y) (lastDayOfPrevMonth now).year = y :=
    truthyOr_of_ne_zero (by omega) _
  have h := mkMonthRange_eq_ok now (some m) (some y)
    (by rw [hm', hy']; unfold datetimeOk; omega)
  rw [hm', hy'] at h
  exact h

theorem lastDayOfPrevMonth_bounds (now : Date) (h1 : datetimeOk now.year now.month)
    (h2 : 2 ≤ now.month ∨ 2 ≤ now.year) :
    1 ≤ (lastDayOfPrevMonth now).month ∧ (lastDayOfPrevMonth now).month ≤ 12 ∧
      1 ≤ (lastDayOfPrevMonth now).year ∧ (lastDayOfPrevMonth now).year ≤ 9999 := by
  unfold datetimeOk at h1
  unfold lastDayOfPrevMonth
  split_ifs with h <;> simp <;> omega

theorem check_if_empty_append (u v : List TimeEntry) :
    check_if_empty (u ++ v) = check_if_empty u ++ check_if_empty v := by
  induction u with
  | nil => rfl
  | cons e rest ih => simp [check_if_empty, ih]

theorem pair_sort (a b : TimeEntry) (hab : keyLe a b) :
    List.insertionSort keyLe [a, b] = [a, b] := by
  show List.orderedInsert keyLe a (List.orderedInsert keyLe b []) = [a, b]
  rw [List.orderedInsert_nil, List.orderedInsert_of_le _ _ hab]

theorem sort_eq_of_perm_of_nodupkeys {l l' : List TimeEntry} (hp : l.Perm l')
    (hnd : l.Pairwise (fun a b => (a.start, a.stop) ≠ (b.start, b.stop))) :
    List.insertionSort keyLe l = List.insertionSort keyLe l' := by
  have hsym : ∀ {a b : TimeEntry},
      (a.start, a.stop) ≠ (b.start, b.stop) → (b.start, b.stop) ≠ (a.start, a.stop) :=
    fun h => h.symm
  have hnd' : l'.Pairwise (fun a b => (a.start, a.stop) ≠ (b.start, b.stop)) :=
    (hp.pairwise_iff hsym).mp hnd
  have key : ∀ m : List TimeEntry,
      m.Pairwise (fun a b => (a.start, a.stop) ≠ (b.start, b.stop)) →
      (List.insertionSort keyLe m).Pairwise keyLt := by
    intro m hm
    have hs : (List.insertionSort keyLe m).Pairwise keyLe := List.sorted_insertionSort keyLe m
    have hm' : (List.insertionSort keyLe m).Pairwise
        (fun a b => (a.start, a.stop) ≠ (b.start, b.stop)) :=
      ((List.perm_insertionSort keyLe m).pairwise_iff hsym).mpr hm
    exact (hs.and hm').imp (fun h => by
      obtain ⟨h1, h2⟩ := h
      unfold keyLe at h1
      unfold keyLt
      rcases h1 with h | ⟨he, hle⟩
      · exact Or.inl h
      · refine Or.inr ⟨he, lt_of_le_of_ne hle (fun hc => h2 ?_)⟩
        rw [he, hc])
  exact List.eq_of_perm_of_sorted
    ((List.perm_insertionSort keyLe l).trans (hp.trans (List.perm_insertionSort keyLe l').symm))
    (key l hnd) (key l' hnd')

/-! Claim theorems. -/

/-- C1: `check_if_overlapping` sorts entries by `(start, stop)` ascending and,
for each adjacent pair in the sorted order only, emits exactly one overlap
warning when the later entry's start is strictly before the earlier entry's
stop; a touching pair (`next.start = prev.stop`) yields no warning; a pair
starting one second before the earlier one stops yields exactly one warning
naming both descriptions and the relevant timestamps; the concrete triple
shows only adjacent pairs are compared (the first and third entries overlap
but produce no warning). -/
theorem c1_overlap_adjacent_window (a b : TimeEntry) (hab : keyLe a b) :
    check_if_overlapping [a, b] = (if b.start < a.stop then [overlapWarning a b] else [])
    ∧ (b.start = a.stop → check_if_overlapping [a, b] = [])
    ∧ (b.start + 1 = a.stop →
        check_if_overlapping [a, b]
          = [Warning.overlap a.description a.stop b.description b.start])
    ∧ check_if_overlapping
        [⟨some 1, "E1", 0, 100, 100⟩, ⟨some 1, "E2", 50, 150, 100⟩, ⟨some 1, "E3", 90, 200, 110⟩]
        = [Warning.overlap "E1" 100 "E2" 50, Warning.overlap "E2" 150 "E3" 90] := by
  have hmain : check_if_overlapping [a, b]
      = (if b.start < a.stop then [overlapWarning a b] else []) := by
    unfold check_if_overlapping
    rw [pair_sort a b hab]
    simp [adjacentOverlaps]
  refine ⟨hmain, ?_, ?_, by rfl⟩
  · intro h
    rw [hmain, if_neg (by omega)]
  · intro h
    rw [hmain, if_pos (by omega)]
    rfl

/-- C1 witness: the touching pair (stop of the first equals start of the
second) yields no warning. -/
theorem c1_witness :
    check_if_overlapping [⟨some 1, "A", 0, 10, 10⟩, ⟨some 1, "B", 10, 20, 10⟩] = [] :=
  (c1_overlap_adjacent_window ⟨some 1, "A", 0, 10, 10⟩ ⟨some 1, "B", 10, 20, 10⟩
    (Or.inl (by norm_num))).2.1 rfl

/-- C2 counterexample: the entry lasting 28801 seconds lasts strictly more
than 8 hours (`8 * 3600 = 28800 < 28801`), yet `check_reasonable_time` emits
no warning for it, because the code rounds to 2 decimals before comparing —
`round(28801/3600, 2) = 8.0`, which is not `> 8`. The claimed
strictly-greater-than-8-hours threshold is therefore false. -/
theorem c2_counterexample :
    8 * SECONDS_IN_H < 28801
    ∧ check_reasonable_time [⟨some 1, "work", 0, 28801, 28801⟩] = [] := by
  refine ⟨by decide, ?_⟩
  rw [check_reasonable_time_singleton, if_neg (by norm_num)]

/-- C2 (amended): the 2-decimal rounding of the float quotient participates
in the comparison, not only in display: an entry is flagged exactly when
`round(seconds / 3600, 2) > 8`, which for integer seconds means
`seconds ≥ 28818` — the binary64 double of 28818/3600 lies just above 8.005,
so it rounds up to 8.01. An entry of exactly 8 h (28800 s) is exempt, and so
is every duration up to 28817 s even though it exceeds 8 hours. The warning
carries the description, the start time, and the rounded hour value. -/
theorem c2_threshold_on_rounded_hours (e : TimeEntry) :
    check_reasonable_time [e] =
      (if 28818 ≤ e.seconds then
        [Warning.longEntry e.description e.start
          (pyRound2 ((e.seconds : ℚ) / ((SECONDS_IN_H : Int) : ℚ)))]
      else [])
    ∧ ((8 : ℚ) < pyRound2 ((e.seconds : ℚ) / ((SECONDS_IN_H : Int) : ℚ)) ↔ 28818 ≤ e.seconds) :=
  ⟨check_reasonable_time_singleton e, pyRound2_hours_gt_8_iff e.seconds⟩

/-- C3: a single entry of exactly 28800 seconds produces no warning, and a
single entry of 28836 seconds produces exactly one warning reporting
8.01 hours. -/
theorem c3_duration_boundary :
    check_reasonable_time [⟨some 1, "task", 0, 28800, 28800⟩] = []
    ∧ check_reasonable_time [⟨some 1, "task", 0, 28836, 28836⟩]
        = [Warning.longEntry "task" 0 (801 / 100)] := by
  constructor
  · rw [check_reasonable_time_singleton, if_neg (by norm_num)]
  · rw [check_reasonable_time_singleton, if_pos (by norm_num)]
    have hq : ((28836 : Int) : ℚ) / ((SECONDS_IN_H : Int) : ℚ) = 801 / 100 := by
      norm_num [SECONDS_IN_H]
    have hpos : (0 : ℚ) < 801 / 100 := by norm_num
    have hub := toDouble_le (801 / 100) hpos
    have hlb := le_toDouble (801 / 100) hpos
    have hsmall : (801 : ℚ) / 100 / 2 ^ 53 * 100 < 1 / 2 := by norm_num
    have hval : pyRound2 (((28836 : Int) : ℚ) / ((SECONDS_IN_H : Int) : ℚ)) = 801 / 100 := by
      rw [hq]
      unfold pyRound2
      rw [roundHalfEven_eq_of_near _ 801 (by push_cast; linarith) (by push_cast; linarith)]
      norm_num
    simp only [hval]

/-- C4: `check_if_empty` treats each entry independently of its position: a
warning referencing project and start when the description is empty, a
separate warning referencing description and start when the project id is
absent, two warnings when both are missing, zero when both are present. -/
theorem c4_empty_fields (e : TimeEntry) (l₁ l₂ : List TimeEntry) :
    check_if_empty (l₁ ++ e :: l₂) = check_if_empty l₁ ++ check_if_empty [e] ++ check_if_empty l₂
    ∧ check_if_empty [e] =
        (if e.description = "" then [Warning.emptyDescription e.project_id e.start] else [])
          ++ (if e.project_id = none then [Warning.emptyProject e.description e.start] else [])
    ∧ check_if_empty [⟨none, "", 3, 4, 1⟩]
        = [Warning.emptyDescription none 3, Warning.emptyProject "" 3]
    ∧ check_if_empty [⟨some 7, "", 3, 4, 1⟩] = [Warning.emptyDescription (some 7) 3]
    ∧ check_if_empty [⟨none, "desc", 3, 4, 1⟩] = [Warning.emptyProject "desc" 3]
    ∧ check_if_empty [⟨some 7, "desc", 3, 4, 1⟩] = [] := by
  refine ⟨?_, by simp [check_if_empty], by rfl, by rfl, by rfl, by rfl⟩
  have h2 : check_if_empty (e :: l₂) = check_if_empty [e] ++ check_if_empty l₂ :=
    check_if_empty_append [e] l₂
  rw [check_if_empty_append l₁ (e :: l₂), h2, List.append_assoc]

/-- C5: once the month range was built and the entries fetched, the run's
outcome is `ok` whatever the three check outcomes are: a check that raises is
logged as a single top-level `raisedException` warning after the warnings
already emitted, never propagated, and the attempted downloads are exactly the
configured list regardless of the check outcomes; when no check raises,
`check_correctness` is the concatenation of the three checks' warnings. -/
theorem c5_checks_never_abort (now : Date) (month year : Option Int)
    (entries : List TimeEntry) (r1 r2 r3 : Except String (List Warning)) (s : Bool)
    (mr : MonthRange) (hmr : mkMonthRange now month year = Except.ok mr) :
    run now month year (Except.ok entries) r1 r2 r3 s
        = Except.ok (checksTryExcept r1 r2 r3, configuredDownloads s)
    ∧ check_correctness entries
        = check_if_empty entries ++ check_reasonable_time entries ++ check_if_overlapping entries
    ∧ (∀ e, checksTryExcept (Except.error e) r2 r3 = [Warning.raisedException e])
    ∧ (∀ w1 e, checksTryExcept (Except.ok w1) (Except.error e) r3
        = w1 ++ [Warning.raisedException e])
    ∧ (∀ w1 w2 e, checksTryExcept (Except.ok w1) (Except.ok w2) (Except.error e)
        = w1 ++ w2 ++ [Warning.raisedException e]) := by
  refine ⟨?_, rfl, fun e => rfl, fun w1 e => rfl, fun w1 w2 e => rfl⟩
  unfold run
  rw [hmr]

set_option maxRecDepth 40000 in
/-- C5 witness: with a valid explicit month range, fetched entries, and the
first check raising, the run still succeeds and attempts every configured
download, logging the exception as one warning. -/
theorem c5_witness :
    run ⟨2023, 11, 5⟩ (some 10) (some 2023) (Except.ok []) (Except.error "boom")
        (Except.ok []) (Except.ok []) true
      = Except.ok ([Warning.raisedException "boom"], configuredDownloads true) := by
  have h := c5_checks_never_abort ⟨2023, 11, 5⟩ (some 10) (some 2023) []
    (Except.error "boom") (Except.ok []) (Except.ok []) true
    ⟨⟨2023, 10, 1⟩, ⟨2023, 10, 31⟩, 31, 10, 2023⟩ rfl
  rw [h.1, h.2.2.1 "boom"]

/-- C6 (amended): an explicitly provided month outside [1, 12] raises a
validation error unless it is 0, and an explicitly provided negative or
greater-than-9999 year raises a validation error; the excepted value 0 is
falsy in Python and is silently replaced by the previous-month default instead
(see the counterexample). -/
theorem c6_validation_rejects_nonzero (now : Date) (m y : Int) :
    (m ≠ 0 → ¬(1 ≤ m ∧ m ≤ 12) →
      ∀ yo : Option Int, mkMonthRange now (some m) yo = Except.error "ValueError")
    ∧ ((y < 0 ∨ 9999 < y) →
      ∀ mo : Option Int, mkMonthRange now mo (some y) = Except.error "ValueError") := by
  constructor
  · intro hm0 hmr yo
    simp only [mkMonthRange]
    rw [truthyOr_of_ne_zero hm0]
    rw [if_neg]
    intro hc
    unfold datetimeOk at hc
    omega
  · intro hy yo
    simp only [mkMonthRange]
    rw [truthyOr_of_ne_zero (by omega : y ≠ 0)]
    rw [if_neg]
    intro hc
    unfold datetimeOk at hc
    omega

set_option maxRecDepth 40000 in
/-- C6 counterexample: month 0 is explicitly provided and outside [1, 12],
yet construction succeeds and the value is silently replaced by the
previous-month default (June 2023 for a current date of 2023-07-10), refuting
the claim that every out-of-range explicit month raises a validation error. -/
theorem c6_counterexample :
    mkMonthRange ⟨2023, 7, 10⟩ (some 0) (some 2023)
      = Except.ok ⟨⟨2023, 6, 1⟩, ⟨2023, 6, 30⟩, 30, 6, 2023⟩ := rfl

/-- C6 witness: month 13 with a valid year raises the validation error. -/
theorem c6_witness :
    mkMonthRange ⟨2023, 7, 10⟩ (some 13) (some 2023) = Except.error "ValueError" :=
  (c6_validation_rejects_nonzero ⟨2023, 7, 10⟩ 13 0).1 (by norm_num) (by omega) (some 2023)

/-- C7 counterexample: two entries with identical `(start, stop)` sort keys
but different descriptions overlap each other; swapping the input order swaps
which description is reported first and at which timestamp, so
`check_if_overlapping` is not invariant under permutation of its input. -/
theorem c7_counterexample :
    ([⟨some 1, "A", 0, 10, 10⟩, ⟨some 1, "B", 0, 10, 10⟩] : List TimeEntry).Perm
        [⟨some 1, "B", 0, 10, 10⟩, ⟨some 1, "A", 0, 10, 10⟩]
    ∧ check_if_overlapping [⟨some 1, "A", 0, 10, 10⟩, ⟨some 1, "B", 0, 10, 10⟩]
        ≠ check_if_overlapping [⟨some 1, "B", 0, 10, 10⟩, ⟨some 1, "A", 0, 10, 10⟩] := by
  constructor
  · exact List.Perm.swap _ _ _
  · decide

/-- C7 (amended): permuting the input gives `check_if_empty` and
`check_reasonable_time` permuted (same multiset) warning lists, and gives
`check_if_overlapping` the identical result provided the entries' `(start,
stop)` sort keys are pairwise distinct; with duplicate keys the stable sort
preserves the input order of the duplicates, so the overlap warnings can
differ (see the counterexample). -/
theorem c7_order_independence (l l' : List TimeEntry) (hp : l.Perm l') :
    (check_if_empty l).Perm (check_if_empty l')
    ∧ (check_reasonable_time l).Perm (check_reasonable_time l')
    ∧ (l.Pairwise (fun a b => (a.start, a.stop) ≠ (b.start, b.stop)) →
        check_if_overlapping l = check_if_overlapping l') :=
  ⟨check_if_empty_perm hp, check_reasonable_time_perm hp, fun hnd => by
    unfold check_if_overlapping
    rw [sort_eq_of_perm_of_nodupkeys hp hnd]⟩

/-- C7 witness: two distinct-key entries given in both orders produce the
same overlap result, and permuted empty/duration warnings. -/
theorem c7_witness :
    check_if_overlapping [⟨some 1, "A", 0, 10, 10⟩, ⟨some 1, "B", 20, 30, 10⟩]
      = check_if_overlapping [⟨some 1, "B", 20, 30, 10⟩, ⟨some 1, "A", 0, 10, 10⟩] :=
  (c7_order_independence [⟨some 1, "A", 0, 10, 10⟩, ⟨some 1, "B", 20, 30, 10⟩]
      [⟨some 1, "B", 20, 30, 10⟩, ⟨some 1, "A", 0, 10, 10⟩]
      (List.Perm.swap _ _ _)).2.2
    (by simp)

set_option maxRecDepth 40000 in
/-- C8: for explicit valid month and year the constructed range starts on the
month's first day, ends on its last actual day (in the same month and year,
never the following month), `days` is the leap-aware day count, the end date
is `start + (days - 1)` days, and the `start`/`stop` properties format the
dates as YYYY-MM-DD; concretely October 2023 gives "2023-10-01" to
"2023-10-31" with 31 days. -/
theorem c8_month_range_invariants (now : Date) (m y : Int) (hm : 1 ≤ m ∧ m ≤ 12)
    (hy : 1 ≤ y ∧ y ≤ 9999) :
    mkMonthRange now (some m) (some y)
        = Except.ok ⟨⟨y, m, 1⟩, ⟨y, m, daysInMonth m y⟩, daysInMonth m y, m, y⟩
    ∧ addDays ⟨y, m, 1⟩ ((daysInMonth m y - 1).toNat) = ⟨y, m, daysInMonth m y⟩
    ∧ MonthRange.start ⟨⟨y, m, 1⟩, ⟨y, m, daysInMonth m y⟩, daysInMonth m y, m, y⟩
        = fmtDate ⟨y, m, 1⟩
    ∧ mkMonthRange ⟨2023, 11, 5⟩ (some 10) (some 2023)
        = Except.ok ⟨⟨2023, 10, 1⟩, ⟨2023, 10, 31⟩, 31, 10, 2023⟩
    ∧ MonthRange.start ⟨⟨2023, 10, 1⟩, ⟨2023, 10, 31⟩, 31, 10, 2023⟩ = "2023-10-01"
    ∧ MonthRange.stop ⟨⟨2023, 10, 1⟩, ⟨2023, 10, 31⟩, 31, 10, 2023⟩ = "2023-10-31"
    ∧ daysInMonth 10 2023 = 31 := by
  exact ⟨mkMonthRange_explicit now m y hm hy, addDays_first_to_last m y, rfl, rfl, rfl, rfl, rfl⟩

set_option maxRecDepth 40000 in
/-- C8 witness: the October 2023 instance of the general statement. -/
theorem c8_witness :
    mkMonthRange ⟨2024, 1, 15⟩ (some 10) (some 2023)
      = Except.ok ⟨⟨2023, 10, 1⟩, ⟨2023, 10, 31⟩, 31, 10, 2023⟩ := by
  have h := (c8_month_range_invariants ⟨2024, 1, 15⟩ 10 2023 (by norm_num) (by norm_num)).1
  exact h

set_option maxRecDepth 40000 in
/-- C9: with both arguments absent, `MonthRange` resolves to the calendar
month preceding `now` (December of the prior year when `now` is in January);
with only one argument present, each missing field independently falls back
to the corresponding component of the previous month; concretely, frozen at
2023-07-10 the default range is June 2023 ("2023-06-01" to "2023-06-30", 30
days) and frozen at 2023-01-10 it is December 2022. -/
theorem c9_previous_month_defaults (now : Date) (h1 : datetimeOk now.year now.month)
    (h2 : 2 ≤ now.month ∨ 2 ≤ now.year) :
    (∃ r, mkMonthRange now none none = Except.ok r
      ∧ r.month = (lastDayOfPrevMonth now).month ∧ r.year = (lastDayOfPrevMonth now).year)
    ∧ (∀ m : Int, 1 ≤ m → m ≤ 12 → ∃ r, mkMonthRange now (some m) none = Except.ok r
      ∧ r.month = m ∧ r.year = (lastDayOfPrevMonth now).year)
    ∧ (∀ y : Int, 1 ≤ y → y ≤ 9999 → ∃ r, mkMonthRange now none (some y) = Except.ok r
      ∧ r.month = (lastDayOfPrevMonth now).month ∧ r.year = y)
    ∧ (now.month = 1 → (lastDayOfPrevMonth now).month = 12
      ∧ (lastDayOfPrevMonth now).year = now.year - 1)
    ∧ (1 < now.month → (lastDayOfPrevMonth now).month = now.month - 1
      ∧ (lastDayOfPrevMonth now).year = now.year)
    ∧ mkMonthRange ⟨2023, 7, 10⟩ none none
      = Except.ok ⟨⟨2023, 6, 1⟩, ⟨2023, 6, 30⟩, 30, 6, 2023⟩
    ∧ mkMonthRange ⟨2023, 1, 10⟩ none none
      = Except.ok ⟨⟨2022, 12, 1⟩, ⟨2022, 12, 31⟩, 31, 12, 2022⟩
    ∧ MonthRange.start ⟨⟨2023, 6, 1⟩, ⟨2023, 6, 30⟩, 30, 6, 2023⟩ = "2023-06-01"
    ∧ MonthRange.stop ⟨⟨2023, 6, 1⟩, ⟨2023, 6, 30⟩, 30, 6, 2023⟩ = "2023-06-30" := by
  have hb := lastDayOfPrevMonth_bounds now h1 h2
  refine ⟨?_, ?_, ?_, ?_, ?_, rfl, rfl, rfl, rfl⟩
  · refine ⟨_, mkMonthRange_eq_ok now none none ?_, rfl, rfl⟩
    unfold datetimeOk
    simp only [truthyOr]
    omega
  · intro m hm1 hm2
    have hm' : truthyOr (some m) (lastDayOfPrevMonth now).month = m :=
      truthyOr_of_ne_zero (by omega) _
    have h := mkMonthRange_eq_ok now (some m) none
      (by rw [hm']; unfold datetimeOk; simp only [truthyOr]; omega)
    rw [hm'] at h
    exact ⟨_, h, rfl, rfl⟩
  · intro y hy1 hy2
    have hy' : truthyOr (some y) (lastDayOfPrevMonth now).year = y :=
      truthyOr_of_ne_zero (by omega) _
    have h := mkMonthRange_eq_ok now none (some y)
      (by rw [hy']; unfold datetimeOk; simp only [truthyOr]; omega)
    rw [hy'] at h
    exact ⟨_, h, rfl, rfl⟩
  · intro hjan
    unfold lastDayOfPrevMonth
    rw [if_neg (by omega)]
    exact ⟨rfl, rfl⟩
  · intro hgt
    unfold lastDayOfPrevMonth
    rw [if_pos hgt]
    exact ⟨rfl, rfl⟩

/-- C9 witness: the frozen-clock instance 2023-07-10 of the general
statement. -/
theorem c9_witness :
    ∃ r, mkMonthRange ⟨2023, 7, 10⟩ none none = Except.ok r
      ∧ r.month = (lastDayOfPrevMonth ⟨2023, 7, 10⟩).month
      ∧ r.year = (lastDayOfPrevMonth ⟨2023, 7, 10⟩).year :=
  (c9_previous_month_defaults ⟨2023, 7, 10⟩ (by norm_num [datetimeOk]) (by norm_num)).1

set_option maxRecDepth 40000 in
/-- C10: a provided month or year equal to 0 is indistinguishable from an
absent one — Python's `or`-based defaulting treats the falsy 0 as missing —
so `MonthRange(0, y)` silently resolves to the previous-month default instead
of raising a validation error. -/
theorem c10_zero_treated_as_absent (now : Date) (x : Option Int) :
    mkMonthRange now (some 0) x = mkMonthRange now none x
    ∧ mkMonthRange now x (some 0) = mkMonthRange now x none
    ∧ mkMonthRange ⟨2023, 7, 10⟩ (some 0) (some 0)
      = Except.ok ⟨⟨2023, 6, 1⟩, ⟨2023, 6, 30⟩, 30, 6, 2023⟩
    ∧ mkMonthRange ⟨2023, 7, 10⟩ (some 0) (some 2023)
      = Except.ok ⟨⟨2023, 6, 1⟩, ⟨2023, 6, 30⟩, 30, 6, 2023⟩ :=
  ⟨rfl, rfl, rfl, rfl⟩

end Toggl
